import Mathlib

set_option maxHeartbeats 1000000

/-! Shallow embedding of `consensus_poller.go` (package `proxyd`): the consensus
poller data model, state accessors, block-fetch parsing, and the group
consensus resolution algorithm, together with theorems checking the
specification's claims about them. Times, block numbers and fuel are naturals;
the one place where unsigned wraparound matters (`proposedBlock -= 1`) is
modelled explicitly. -/

/-- A backend of the load-balanced group. `rateLimited` and `online` model the
results of the `IsRateLimited()` and `Online()` capabilities during the
snapshot under consideration. -/
structure Backend where
  name : String
  rateLimited : Bool
  online : Bool
deriving DecidableEq

/-- Per-backend mutable state (the `backendState` struct): latest observed
block number and hash, last update time, ban expiry. -/
structure BackendState where
  latestBlockNumber : Nat
  latestBlockHash : String
  lastUpdate : Nat
  bannedUntil : Nat
deriving DecidableEq

/-- The `ConsensusPoller` struct: backend pool, per-backend state map, the
published consensus group and the tracker's consensus block number. -/
structure ConsensusPoller where
  backends : List Backend
  backendState : Backend → BackendState
  consensusGroup : List Backend
  tracker : Nat

/-- `GetConsensusGroup`: `g := make([]*Backend, len(cp.backendGroup.Backends))`
followed by `copy(g, cp.consensusGroup)`. `make` fills the slice with nil
pointers (`none` here); `copy` transfers `min` of the two lengths. -/
def GetConsensusGroup (cp : ConsensusPoller) : List (Option Backend) :=
  (cp.consensusGroup.take cp.backends.length).map some ++
    List.replicate (cp.backends.length - cp.consensusGroup.length) none

/-- `GetConsensusBlockNumber` delegates to the tracker. -/
def GetConsensusBlockNumber (cp : ConsensusPoller) : Nat := cp.tracker

/-- `getBackendState`: copies number and hash out as a consistent pair. -/
def getBackendState (cp : ConsensusPoller) (be : Backend) : Nat × String :=
  ((cp.backendState be).latestBlockNumber, (cp.backendState be).latestBlockHash)

/-- `setBackendState` on one backend's state record: `changed` is whether the
stored hash differs from the incoming one, and number, hash and `lastUpdate`
are overwritten (the ban expiry is untouched). -/
def setBackendState (bs : BackendState) (blockNumber : Nat) (blockHash : String)
    (now : Nat) : Bool × BackendState :=
  (bs.latestBlockHash != blockHash,
   { latestBlockNumber := blockNumber, latestBlockHash := blockHash,
     lastUpdate := now, bannedUntil := bs.bannedUntil })

/-- A decoded JSON value, as Go's `encoding/json` produces into `interface` land:
the `Result` field of an `RPCRes`. -/
inductive JsonValue where
  | null
  | bool (b : Bool)
  | num (n : Int)
  | str (s : String)
  | arr (elems : List JsonValue)
  | obj (fields : List (String × JsonValue))

def isHexDigitChar (c : Char) : Bool :=
  c.isDigit || ('a' ≤ c && c ≤ 'f') || ('A' ≤ c && c ≤ 'F')

def hexDigitVal (c : Char) : Nat :=
  if c.isDigit then c.toNat - '0'.toNat
  else if 'a' ≤ c && c ≤ 'f' then c.toNat - 'a'.toNat + 10
  else c.toNat - 'A'.toNat + 10

def hexVal (l : List Char) : Nat :=
  l.foldl (fun acc c => acc * 16 + hexDigitVal c) 0

/-- The digit part of `hexutil.DecodeUint64` after the marker is stripped:
empty digits, a leading zero before further digits, a non-hex digit, or a
value not fitting in 64 bits are all errors. -/
def decodeHexDigits (raw : List Char) : Option Nat :=
  match raw with
  | [] => none
  | '0' :: _ :: _ => none
  | _ =>
    if !raw.all isHexDigitChar then none
    else if hexVal raw < 2 ^ 64 then some (hexVal raw) else none

/-- `hexutil.DecodeUint64`: requires the `0x`/`0X` marker, a nonempty digit
string with no leading zero (unless it is the single digit `0`), all hex
digits, and a value below 2^64. `none` models the error return;
`hexutil.MustDecodeUint64` panics on it. -/
def decodeUint64 (s : String) : Option Nat :=
  match s.data with
  | '0' :: 'x' :: raw => decodeHexDigits raw
  | '0' :: 'X' :: raw => decodeHexDigits raw
  | _ => none

/-- Outcome of `fetchBlock`. `transportErr` is the error returned when
`ForwardRPC` itself fails; `malformed` is the `fmt.Errorf` branch for a result
that is not a JSON object; `crash` models a Go runtime panic (a failed type
assertion on the `number` or `hash` field, or `hexutil.MustDecodeUint64` on
undecodable input), which aborts the process instead of returning a value. -/
inductive FetchOutcome where
  | ok (blockNumber : Nat) (blockHash : String)
  | transportErr
  | malformed
  | crash
deriving DecidableEq

/-- `fetchBlock`: the RPC transport either fails (`none`) or yields the decoded
`Result` field; the body then runs the source's two parsing lines in order:
the `map[string]interface` type assertion with its error return, then
`hexutil.MustDecodeUint64(jsonMap["number"].(string))` and
`jsonMap["hash"].(string)`, whose failures are runtime panics. -/
def fetchBlock (result : Option JsonValue) : FetchOutcome :=
  match result with
  | none => FetchOutcome.transportErr
  | some v =>
    match v with
    | JsonValue.obj fields =>
      match fields.lookup "number" with
      | some (JsonValue.str s) =>
        match decodeUint64 s with
        | some n =>
          match fields.lookup "hash" with
          | some (JsonValue.str h) => FetchOutcome.ok n h
          | _ => FetchOutcome.crash
        | none => FetchOutcome.crash
      | _ => FetchOutcome.crash
    | _ => FetchOutcome.malformed

/-- Result of one backend fetch inside the group consensus loop, abstracting
transport and parsing together: `err` covers any error from `fetchBlock`. -/
inductive FetchResult where
  | ok (blockNumber : Nat) (blockHash : String)
  | err
deriving DecidableEq

/-- The filter applied to each backend in a resolution round:
`be.IsRateLimited() || !be.Online() || time.Now().Before(bannedUntil)`. -/
def isFiltered (now : Nat) (s : Backend → BackendState) (be : Backend) : Bool :=
  be.rateLimited || !be.online || decide (now < (s be).bannedUntil)

/-- One step of the baseline scan over all backends:
`if lowestBlock == 0 || backendLatestBlockNumber < lowestBlock` then take this
backend's number and hash. -/
def lowestStep (s : Backend → BackendState) (acc : Nat × String) (be : Backend) :
    Nat × String :=
  if acc.1 = 0 ∨ (s be).latestBlockNumber < acc.1 then
    ((s be).latestBlockNumber, (s be).latestBlockHash)
  else acc

/-- The baseline of a resolution cycle: the scan of every backend's state,
starting from `lowestBlock = 0`. -/
def lowestBlockFold (cp : ConsensusPoller) : Nat × String :=
  cp.backends.foldl (lowestStep cp.backendState) (0, "")

/-- How one pass of the inner backend loop of `UpdateBackendGroupConsensus`
ends: everyone checked agreed (with the final working hash, the agreeing
backends in order, and the names of filtered backends), or some backend
disagreed and broke out, recording whether it set the `broken` flag. -/
inductive RoundResult where
  | agreed (proposedHash : String) (consensus : List Backend) (filteredNames : List String)
  | disagreed (brokenSet : Bool)
deriving DecidableEq

/-- One pass of `for _, be := range cp.backendGroup.Backends` at proposed
height `p` with working hash `pH`: filtered backends are skipped (their names
collected), fetch errors are skipped, an empty working hash adopts the first
fetched hash, and the first backend whose fetched block does not match the
proposal ends the round in disagreement, with the `broken` flag set exactly
when `currentConsensusBlockNumber >= actualBlockNumber`. -/
def runRound (H now : Nat) (s : Backend → BackendState)
    (fetch : Backend → Nat → FetchResult) (p : Nat) :
    List Backend → String → List Backend → List String → RoundResult
  | [], pH, cons, filt => RoundResult.agreed pH cons filt
  | be :: rest, pH, cons, filt =>
    if isFiltered now s be then
      runRound H now s fetch p rest pH cons (filt ++ [be.name])
    else
      match fetch be p with
      | FetchResult.err => runRound H now s fetch p rest pH cons filt
      | FetchResult.ok n h =>
        let pH2 := if pH == "" then h else pH
        if n != p || h != pH2 then RoundResult.disagreed (decide (H ≥ n))
        else runRound H now s fetch p rest pH2 (cons ++ [be]) filt

/-- `proposedBlock -= 1` on a `hexutil.Uint64`: unsigned 64-bit, so zero wraps
around to 2^64 - 1. -/
def decWrap (p : Nat) : Nat :=
  if p = 0 then 2 ^ 64 - 1 else p - 1

/-- The `for !hasConsensus` walk-back loop. `fuel` bounds how many rounds the
model may run; the source has no such bound, so `none` means the loop is still
running after `fuel` rounds. On a failed round the proposed height is
decremented (with wraparound) and the working hash cleared. -/
def consensusLoop (H now : Nat) (s : Backend → BackendState)
    (fetch : Backend → Nat → FetchResult) (pool : List Backend) :
    Nat → Nat → String → Bool → Option (Nat × List Backend × Bool)
  | 0, _, _, _ => none
  | fuel + 1, p, pH, broken =>
    match runRound H now s fetch p pool pH [] [] with
    | RoundResult.agreed _ cons _ => some (p, cons, broken)
    | RoundResult.disagreed b =>
      consensusLoop H now s fetch pool fuel (decWrap p) "" (broken || b)

/-- `UpdateBackendGroupConsensus`: read the tracker, scan the baseline, return
with no change if `lowestBlock == 0`, otherwise run the walk-back loop and
publish the resolved height (tracker) and agreeing backends (consensus group).
The returned `Bool` is the `broken` flag (whether a broken-consensus event was
emitted). `none` means the walk-back loop did not finish within `fuel`. -/
def UpdateBackendGroupConsensus (cp : ConsensusPoller) (now : Nat)
    (fetch : Backend → Nat → FetchResult) (fuel : Nat) :
    Option (ConsensusPoller × Bool) :=
  let currentConsensusBlockNumber := GetConsensusBlockNumber cp
  let lowest := lowestBlockFold cp
  if lowest.1 = 0 then some (cp, false)
  else
    match consensusLoop currentConsensusBlockNumber now cp.backendState fetch
        cp.backends fuel lowest.1 lowest.2 false with
    | none => none
    | some (p, cons, broken) =>
      some ({ cp with tracker := p, consensusGroup := cons }, broken)

/-- Whether a round ended with everyone checked in agreement. -/
def RoundResult.isAgreed : RoundResult → Bool
  | RoundResult.agreed _ _ _ => true
  | RoundResult.disagreed _ => false

/-- The last element of a list, or `d` when the list is empty. -/
def lastD (l : List Nat) (d : Nat) : Nat :=
  l.foldl (fun _ x => x) d

/- Concrete backends and pollers used to instantiate the theorems below. -/

/-- A healthy backend: online, not rate limited. -/
def beA : Backend := ⟨"A", false, true⟩

/-- A second healthy backend. -/
def beB : Backend := ⟨"B", false, true⟩

/-- A rate-limited backend. -/
def beR : Backend := ⟨"R", true, true⟩

/-- A healthy backend used with a still-zero state. -/
def beZ : Backend := ⟨"Z", false, true⟩

/-- A fetch oracle whose every request errors. -/
def fdummy : Backend → Nat → FetchResult := fun _ _ => FetchResult.err

def s1x : Backend → BackendState := fun _ => ⟨10, "a", 0, 0⟩

/-- Two backends in the pool, one backend in the published group. -/
def cp1x : ConsensusPoller := ⟨[beA, beB], s1x, [beA], 10⟩

def s2x : Backend → BackendState :=
  fun be => if be == beA then ⟨5, "a", 0, 0⟩ else ⟨0, "", 0, 0⟩

/-- Backend `A` has reported height 5; backend `Z` still has height 0. -/
def cp2x : ConsensusPoller := ⟨[beA, beZ], s2x, [], 0⟩

def s4x : Backend → BackendState := fun _ => ⟨5, "b", 0, 0⟩

/-- At the proposed height 5 this oracle answers with a block at height 20; at
any other proposed height it agrees with hash `a`. -/
def f4x : Backend → Nat → FetchResult :=
  fun _ j => if j = 5 then FetchResult.ok 20 "x" else FetchResult.ok j "a"

/-- One healthy backend, previously published consensus height 10. -/
def cp4x : ConsensusPoller := ⟨[beA], s4x, [], 10⟩

def s5x : Backend → BackendState :=
  fun be => if be == beA then ⟨10, "a", 0, 0⟩ else ⟨5, "b", 0, 0⟩

def f5x : Backend → Nat → FetchResult := fun _ j => FetchResult.ok j "a"

/-- Healthy backend `A` at (10, a); rate-limited backend `R` at (5, b). -/
def cp5x : ConsensusPoller := ⟨[beA, beR], s5x, [], 0⟩

def s6x : Backend → BackendState := fun _ => ⟨0, "", 0, 0⟩

/-- A rate-limited backend with no data yet, still sitting in the previously
published consensus group. -/
def cp6x : ConsensusPoller := ⟨[beR], s6x, [beR], 9⟩

def s9x : Backend → BackendState := fun _ => ⟨5, "b", 0, 0⟩

/-- A backend that always answers one block above whatever height is asked. -/
def f9x : Backend → Nat → FetchResult := fun _ j => FetchResult.ok (j + 1) "x"

def cp9x : ConsensusPoller := ⟨[beA], s9x, [], 0⟩

def sW2 : Backend → BackendState := fun _ => ⟨5, "a", 0, 0⟩

def cpW2 : ConsensusPoller := ⟨[beA], sW2, [], 0⟩

def sW5 : Backend → BackendState := fun _ => ⟨7, "h", 0, 0⟩

def fW5 : Backend → Nat → FetchResult := fun _ _ => FetchResult.ok 7 "h"

def cpW5 : ConsensusPoller := ⟨[beA], sW5, [], 0⟩

def sW6 : Backend → BackendState := fun _ => ⟨5, "x", 0, 0⟩

def fW6 : Backend → Nat → FetchResult := fun _ j => FetchResult.ok j "x"

def cpW6 : ConsensusPoller := ⟨[beA], sW6, [], 0⟩

def sW8 : Backend → BackendState := fun _ => ⟨0, "", 0, 0⟩

def cpW8 : ConsensusPoller := ⟨[beA], sW8, [beA], 4⟩

def sW9 : Backend → BackendState := fun _ => ⟨1, "", 0, 0⟩

def sW10 : Backend → BackendState := fun _ => ⟨7, "h", 0, 0⟩

def cpW10 : ConsensusPoller := ⟨[beR], sW10, [beR], 3⟩

/-! Helper lemmas about the baseline scan. -/

theorem lastD_cons (x : Nat) (xs : List Nat) (d : Nat) : lastD (x :: xs) d = lastD xs x := rfl

theorem lastD_mem : ∀ (l : List Nat) (d : Nat), l = [] ∨ lastD l d ∈ l := by
  intro l
  induction l with
  | nil => intro d; left; rfl
  | cons x xs ih =>
    intro d
    right
    rw [lastD_cons]
    rcases ih x with h | h
    · subst h; simp [lastD]
    · exact List.mem_cons_of_mem _ h

theorem lowestStep_fst_eq_zero (s : Backend → BackendState) (acc : Nat × String) (be : Backend) :
    ((lowestStep s acc be).1 = 0) ↔ (s be).latestBlockNumber = 0 := by
  unfold lowestStep
  split
  · next h => simp
  · next h =>
    push_neg at h
    constructor
    · intro h0; exact absurd h0 h.1
    · intro h0; omega

theorem lowfold_zero_iff (s : Backend → BackendState) :
    ∀ (l : List Backend) (acc : Nat × String),
      ((List.foldl (lowestStep s) acc l).1 = 0) ↔
        lastD (l.map fun be => (s be).latestBlockNumber) acc.1 = 0 := by
  intro l
  induction l with
  | nil => intro acc; simp [lastD]
  | cons be l ih =>
    intro acc
    rw [List.foldl_cons, List.map_cons, lastD_cons, ih (lowestStep s acc be)]
    rcases l with _ | ⟨be2, l2⟩
    · simp only [List.map_nil, lastD]
      simpa using lowestStep_fst_eq_zero s acc be
    · rw [List.map_cons, lastD_cons, lastD_cons]

theorem lowfold_result (s : Backend → BackendState) :
    ∀ (l : List Backend) (acc : Nat × String),
      List.foldl (lowestStep s) acc l = acc ∨
        ∃ be ∈ l, List.foldl (lowestStep s) acc l =
          ((s be).latestBlockNumber, (s be).latestBlockHash) := by
  intro l
  induction l with
  | nil => intro acc; left; rfl
  | cons be l ih =>
    intro acc
    rw [List.foldl_cons]
    rcases ih (lowestStep s acc be) with h | ⟨be2, hmem, h⟩
    · rw [h]
      unfold lowestStep
      split
      · right; exact ⟨be, List.mem_cons_self .., rfl⟩
      · left; rfl
    · right; exact ⟨be2, List.mem_cons_of_mem _ hmem, h⟩

theorem lowfold_le (s : Backend → BackendState) :
    ∀ (l : List Backend) (acc : Nat × String),
      acc.1 ≠ 0 → (∀ be ∈ l, (s be).latestBlockNumber ≠ 0) →
      (List.foldl (lowestStep s) acc l).1 ≤ acc.1 ∧
        ∀ be ∈ l, (List.foldl (lowestStep s) acc l).1 ≤ (s be).latestBlockNumber := by
  intro l
  induction l with
  | nil => intro acc h _; exact ⟨Nat.le_refl _, by simp⟩
  | cons be l ih =>
    intro acc hacc hall
    rw [List.foldl_cons]
    have hbe : (s be).latestBlockNumber ≠ 0 := hall be (List.mem_cons_self ..)
    have hacc2 : (lowestStep s acc be).1 ≠ 0 := by
      unfold lowestStep
      split
      · exact hbe
      · exact hacc
    have hle1 : (lowestStep s acc be).1 ≤ acc.1 := by
      unfold lowestStep
      split
      · next hcond =>
        rcases hcond with h0 | hlt
        · exact absurd h0 hacc
        · exact Nat.le_of_lt hlt
      · exact Nat.le_refl _
    have hle2 : (lowestStep s acc be).1 ≤ (s be).latestBlockNumber := by
      unfold lowestStep
      split
      · exact Nat.le_refl _
      · next hcond =>
        push_neg at hcond
        exact hcond.2
    obtain ⟨ih1, ih2⟩ :=
      ih (lowestStep s acc be) hacc2 (fun b hb => hall b (List.mem_cons_of_mem _ hb))
    refine ⟨Nat.le_trans ih1 hle1, ?_⟩
    intro b hb
    rcases List.mem_cons.mp hb with rfl | hb
    · exact Nat.le_trans ih1 hle2
    · exact ih2 b hb

theorem lowfold_lb (cp : ConsensusPoller)
    (hnz : ∀ be ∈ cp.backends, (cp.backendState be).latestBlockNumber ≠ 0) :
    ∀ be ∈ cp.backends, (lowestBlockFold cp).1 ≤ (cp.backendState be).latestBlockNumber := by
  unfold lowestBlockFold
  rcases hpool : cp.backends with _ | ⟨b1, rest⟩
  · simp
  · rw [List.foldl_cons]
    have hb1 : (cp.backendState b1).latestBlockNumber ≠ 0 := by
      apply hnz; rw [hpool]; exact List.mem_cons_self ..
    have hstep : lowestStep cp.backendState (0, "") b1 =
        ((cp.backendState b1).latestBlockNumber, (cp.backendState b1).latestBlockHash) := by
      unfold lowestStep
      rw [if_pos]
      left; rfl
    rw [hstep]
    obtain ⟨h1, h2⟩ := lowfold_le cp.backendState rest
      ((cp.backendState b1).latestBlockNumber, (cp.backendState b1).latestBlockHash)
      hb1 (fun b hb => by apply hnz; rw [hpool]; exact List.mem_cons_of_mem _ hb)
    intro be hbe
    rcases List.mem_cons.mp hbe with rfl | hbe
    · exact h1
    · exact h2 be hbe

theorem lowfold_attained (cp : ConsensusPoller)
    (hnz : ∀ be ∈ cp.backends, (cp.backendState be).latestBlockNumber ≠ 0)
    (hne : cp.backends ≠ []) :
    ∃ be ∈ cp.backends, lowestBlockFold cp =
      ((cp.backendState be).latestBlockNumber, (cp.backendState be).latestBlockHash) := by
  have hz : (lowestBlockFold cp).1 ≠ 0 := by
    intro h0
    rw [lowestBlockFold, lowfold_zero_iff] at h0
    rcases lastD_mem (cp.backends.map fun be => (cp.backendState be).latestBlockNumber) 0 with
      hemp | hmem
    · exact absurd (List.map_eq_nil_iff.mp hemp) hne
    · rw [h0] at hmem
      obtain ⟨be, hbe, heq⟩ := List.mem_map.mp hmem
      exact hnz be hbe heq
  rcases lowfold_result cp.backendState cp.backends (0, "") with h | h
  · exfalso
    apply hz
    rw [lowestBlockFold, h]
  · exact h

/-! Helper lemmas about a single round and the walk-back loop. -/

theorem runRound_skip_all (H now : Nat) (s : Backend → BackendState)
    (fetch : Backend → Nat → FetchResult) (p : Nat) :
    ∀ (l : List Backend) (pH : String) (cons : List Backend) (filt : List String),
      (∀ be ∈ l, isFiltered now s be = true ∨ fetch be p = FetchResult.err) →
      runRound H now s fetch p l pH cons filt =
        RoundResult.agreed pH cons
          (filt ++ (l.filter fun be => isFiltered now s be).map Backend.name) := by
  intro l
  induction l with
  | nil => intro pH cons filt _; simp [runRound]
  | cons be l ih =>
    intro pH cons filt hall
    cases hfv : isFiltered now s be with
    | true =>
      simp only [runRound, hfv, if_true]
      rw [ih pH cons (filt ++ [be.name]) (fun b hb => hall b (List.mem_cons_of_mem _ hb))]
      simp [List.filter_cons, hfv]
    | false =>
      rcases hall be (List.mem_cons_self ..) with hf | herr
      · rw [hfv] at hf; cases hf
      · simp only [runRound, hfv, Bool.false_eq_true, if_false, herr]
        rw [ih pH cons filt (fun b hb => hall b (List.mem_cons_of_mem _ hb))]
        simp [List.filter_cons, hfv]

theorem runRound_all_match (H now : Nat) (s : Backend → BackendState)
    (fetch : Backend → Nat → FetchResult) (h0 : Nat) (hash0 : String) :
    ∀ (l : List Backend) (cons : List Backend) (filt : List String),
      (∀ be ∈ l, isFiltered now s be = true ∨ fetch be h0 = FetchResult.ok h0 hash0) →
      runRound H now s fetch h0 l hash0 cons filt =
        RoundResult.agreed hash0
          (cons ++ l.filter fun be => !isFiltered now s be)
          (filt ++ (l.filter fun be => isFiltered now s be).map Backend.name) := by
  intro l
  induction l with
  | nil => intro cons filt _; simp [runRound]
  | cons be l ih =>
    intro cons filt hall
    cases hfv : isFiltered now s be with
    | true =>
      simp only [runRound, hfv, if_true]
      rw [ih cons (filt ++ [be.name]) (fun b hb => hall b (List.mem_cons_of_mem _ hb))]
      simp [List.filter_cons, hfv]
    | false =>
      rcases hall be (List.mem_cons_self ..) with hf | hok
      · rw [hfv] at hf; cases hf
      · simp only [runRound, hfv, Bool.false_eq_true, if_false, hok]
        simp only [ite_self, bne_self_eq_false, Bool.or_self, Bool.false_eq_true, if_false]
        rw [ih (cons ++ [be]) filt (fun b hb => hall b (List.mem_cons_of_mem _ hb))]
        simp [List.filter_cons, hfv, List.append_assoc]

theorem runRound_agreed_mem (H now : Nat) (s : Backend → BackendState)
    (fetch : Backend → Nat → FetchResult) (p : Nat) :
    ∀ (l : List Backend) (pH : String) (cons : List Backend) (filt : List String)
      (pH2 : String) (cons2 : List Backend) (filt2 : List String),
      runRound H now s fetch p l pH cons filt = RoundResult.agreed pH2 cons2 filt2 →
      ∀ be ∈ cons2, be ∈ cons ∨ isFiltered now s be = false := by
  intro l
  induction l with
  | nil =>
    intro pH cons filt pH2 cons2 filt2 hrun be hbe
    simp only [runRound, RoundResult.agreed.injEq] at hrun
    left
    rw [hrun.2.1]
    exact hbe
  | cons b l ih =>
    intro pH cons filt pH2 cons2 filt2 hrun be hbe
    cases hfv : isFiltered now s b with
    | true =>
      simp only [runRound, hfv, if_true] at hrun
      exact ih pH cons (filt ++ [b.name]) pH2 cons2 filt2 hrun be hbe
    | false =>
      simp only [runRound, hfv, Bool.false_eq_true, if_false] at hrun
      cases hfetch : fetch b p with
      | err =>
        rw [hfetch] at hrun
        exact ih pH cons filt pH2 cons2 filt2 hrun be hbe
      | ok n h =>
        rw [hfetch] at hrun
        simp only at hrun
        cases hpH : pH == "" with
        | true =>
          simp only [hpH, eq_self_iff_true, if_true] at hrun
          split at hrun
          · exact RoundResult.noConfusion hrun
          · rcases ih _ _ _ _ _ _ hrun be hbe with hmem | hflt
            · rcases List.mem_append.mp hmem with hmem | hmem
              · exact Or.inl hmem
              · right
                rw [List.mem_singleton.mp hmem]
                exact hfv
            · exact Or.inr hflt
        | false =>
          simp only [hpH, Bool.false_eq_true, if_false] at hrun
          split at hrun
          · exact RoundResult.noConfusion hrun
          · rcases ih _ _ _ _ _ _ hrun be hbe with hmem | hflt
            · rcases List.mem_append.mp hmem with hmem | hmem
              · exact Or.inl hmem
              · right
                rw [List.mem_singleton.mp hmem]
                exact hfv
            · exact Or.inr hflt

theorem consensusLoop_mem_unfiltered (H now : Nat) (s : Backend → BackendState)
    (fetch : Backend → Nat → FetchResult) (pool : List Backend) :
    ∀ (fuel p : Nat) (pH : String) (b : Bool) (p2 : Nat) (cons : List Backend) (b2 : Bool),
      consensusLoop H now s fetch pool fuel p pH b = some (p2, cons, b2) →
      ∀ be ∈ cons, isFiltered now s be = false := by
  intro fuel
  induction fuel with
  | zero => intro p pH b p2 cons b2 h; cases h
  | succ fuel ih =>
    intro p pH b p2 cons b2 h be hbe
    simp only [consensusLoop] at h
    cases hr : runRound H now s fetch p pool pH [] [] with
    | agreed pH2 cons2 filt2 =>
      rw [hr] at h
      simp only [Option.some.injEq, Prod.mk.injEq] at h
      rcases runRound_agreed_mem H now s fetch p pool pH [] [] pH2 cons2 filt2 hr be
          (by rw [h.2.1]; exact hbe) with hmem | hflt
      · cases hmem
      · exact hflt
    | disagreed bb =>
      rw [hr] at h
      exact ih (decWrap p) "" (b || bb) p2 cons b2 h be hbe

theorem consensusLoop_term (H now : Nat) (s : Backend → BackendState)
    (fetch : Backend → Nat → FetchResult) (pool : List Backend) (p0 : Nat)
    (hagree : ∀ pH, (runRound H now s fetch p0 pool pH [] []).isAgreed = true) :
    ∀ (d : Nat) (pH : String) (b : Bool),
      (consensusLoop H now s fetch pool (d + 1) (p0 + d) pH b).isSome = true := by
  intro d
  induction d with
  | zero =>
    intro pH b
    simp only [Nat.add_zero, consensusLoop]
    cases hr : runRound H now s fetch p0 pool pH [] [] with
    | agreed pH2 cons2 filt2 => simp
    | disagreed bb =>
      have := hagree pH
      rw [hr] at this
      cases this
  | succ d ih =>
    intro pH b
    simp only [consensusLoop]
    cases hr : runRound H now s fetch (p0 + (d + 1)) pool pH [] [] with
    | agreed pH2 cons2 filt2 => simp
    | disagreed bb =>
      have hdw : decWrap (p0 + (d + 1)) = p0 + d := by
        unfold decWrap
        rw [if_neg (by omega)]
        omega
      rw [hdw]
      exact ih "" (b || bb)

theorem lowfold_unanimous (cp : ConsensusPoller) (h0 : Nat) (hash0 : String)
    (hpos : h0 ≠ 0)
    (hbound : ∀ be ∈ cp.backends, h0 ≤ (cp.backendState be).latestBlockNumber)
    (hhash : ∀ be ∈ cp.backends, (cp.backendState be).latestBlockNumber = h0 →
      (cp.backendState be).latestBlockHash = hash0)
    (hex : ∃ be ∈ cp.backends, (cp.backendState be).latestBlockNumber = h0) :
    lowestBlockFold cp = (h0, hash0) := by
  have hnz : ∀ be ∈ cp.backends, (cp.backendState be).latestBlockNumber ≠ 0 := by
    intro be hbe
    have := hbound be hbe
    omega
  obtain ⟨be0, hbe0, h0eq⟩ := hex
  have hne : cp.backends ≠ [] := by
    intro hemp
    rw [hemp] at hbe0
    cases hbe0
  obtain ⟨be1, hbe1, hfold⟩ := lowfold_attained cp hnz hne
  have hlb := lowfold_lb cp hnz be0 hbe0
  have hub := hbound be1 hbe1
  have hfst : (lowestBlockFold cp).1 = (cp.backendState be1).latestBlockNumber := by
    rw [hfold]
  have hn1 : (cp.backendState be1).latestBlockNumber = h0 := by omega
  rw [hfold, hn1, hhash be1 hbe1 hn1]

/-! The claims. -/

/-- C1: the specification says `GetConsensusGroup` returns a defensive copy
equal to the currently published consensus group, and the function's own
comment says it returns the members agreeing in a consensus; but the copy is
sized by the whole backend pool (`len(cp.backendGroup.Backends)`) rather than
by the group, so whenever the group is smaller than the pool the returned
slice is padded with nil backends and is not equal to the published group.
With two pool backends and a one-backend published group the call returns the
two-element list with a trailing nil. -/
theorem c1_getConsensusGroup_pads_with_nil :
    GetConsensusGroup cp1x = [some beA, none] ∧
      GetConsensusGroup cp1x ≠ cp1x.consensusGroup.map some :=
  ⟨rfl, by decide⟩

/-- C2 counterexample: with backend `A` at height 5 and backend `Z` still at
height 0, scanned in that order, the cycle aborts with no change even though
not every backend's height is zero — refuting the claim that the cycle aborts
exactly when every backend's height is zero. (The zero height of the last
scanned backend re-triggers the `lowestBlock == 0` initialisation test.) -/
theorem c2_counterexample :
    UpdateBackendGroupConsensus cp2x 0 fdummy 1 = some (cp2x, false) ∧
      ¬(∀ be ∈ cp2x.backends, (cp2x.backendState be).latestBlockNumber = 0) ∧
      (lowestBlockFold cp2x).1 = 0 :=
  ⟨rfl, by decide, by decide⟩

/-- C2 (amended): when every backend's recorded height is nonzero, the baseline
`lowestBlock` is a lower bound of all recorded heights and is attained by some
backend — it is their minimum, hence independent of scan order; in general the
baseline is zero (and the cycle then aborts with no change) exactly when the
pool is empty or the last scanned backend's height is zero, which in
particular covers the all-zero cold start. -/
theorem c2_baseline_amended (cp : ConsensusPoller) (now : Nat)
    (fetch : Backend → Nat → FetchResult) (fuel : Nat) :
    ((∀ be ∈ cp.backends, (cp.backendState be).latestBlockNumber ≠ 0) →
      (∀ be ∈ cp.backends,
        (lowestBlockFold cp).1 ≤ (cp.backendState be).latestBlockNumber) ∧
      (cp.backends ≠ [] → ∃ be ∈ cp.backends,
        (lowestBlockFold cp).1 = (cp.backendState be).latestBlockNumber))
    ∧ ((lowestBlockFold cp).1 = 0 ↔
        lastD (cp.backends.map fun be => (cp.backendState be).latestBlockNumber) 0 = 0)
    ∧ ((lowestBlockFold cp).1 = 0 →
        UpdateBackendGroupConsensus cp now fetch fuel = some (cp, false)) := by
  refine ⟨?_, ?_, ?_⟩
  · intro hnz
    refine ⟨lowfold_lb cp hnz, ?_⟩
    intro hne
    obtain ⟨be, hbe, hfold⟩ := lowfold_attained cp hnz hne
    exact ⟨be, hbe, by rw [hfold]⟩
  · exact lowfold_zero_iff cp.backendState cp.backends (0, "")
  · intro hzero
    unfold UpdateBackendGroupConsensus
    rw [if_pos hzero]

theorem c2_witness :
    (∀ be ∈ cpW2.backends,
      (lowestBlockFold cpW2).1 ≤ (cpW2.backendState be).latestBlockNumber) ∧
    (cpW2.backends ≠ [] → ∃ be ∈ cpW2.backends,
      (lowestBlockFold cpW2).1 = (cpW2.backendState be).latestBlockNumber) :=
  (c2_baseline_amended cpW2 0 fdummy 1).1 (by decide)

/-- C3: the specification says `fetchBlock` only ever fails through a non-fatal
error when the result is not a record or when the height or hash field is
absent or undecodable; but in the source only the not-a-record case returns an
error (`fmt.Errorf`), while a missing or non-string `number` or `hash` field
and an undecodable height go through a bare type assertion or
`hexutil.MustDecodeUint64` and panic, killing the process. Evaluated at the
failing inputs: an object lacking `number`, an object whose `number` is not
decodable hex, and an object with a decodable `number` but no `hash` all
crash; only the not-a-record and transport cases return error values. -/
theorem c3_fetchBlock_crashes_on_malformed_fields :
    fetchBlock (some (JsonValue.obj [("hash", JsonValue.str "0xabc")])) =
      FetchOutcome.crash ∧
    fetchBlock (some (JsonValue.obj
      [("number", JsonValue.str "zz"), ("hash", JsonValue.str "0xabc")])) =
      FetchOutcome.crash ∧
    fetchBlock (some (JsonValue.obj [("number", JsonValue.str "0x5")])) =
      FetchOutcome.crash ∧
    fetchBlock (some (JsonValue.str "x")) = FetchOutcome.malformed ∧
    fetchBlock none = FetchOutcome.transportErr :=
  ⟨rfl, rfl, rfl, rfl, rfl⟩

/-- C4 counterexample: previously published height is 10 and the single live
backend, checked at proposed height 5 ≤ 10, disagrees (it answers with a block
at height 20), so by the claim a broken-consensus event must be recorded; but
the source's test compares the previous height to the FETCHED height
(`currentConsensusBlockNumber >= actualBlockNumber`, 10 >= 20 fails), so the
round records no broken event and the whole cycle finishes with the broken
flag false. -/
theorem c4_counterexample :
    runRound 10 0 s4x f4x 5 [beA] "b" [] [] = RoundResult.disagreed false ∧
      (5 : Nat) ≤ 10 ∧
      UpdateBackendGroupConsensus cp4x 0 f4x 2 =
        some ({ cp4x with tracker := 4, consensusGroup := [beA] }, false) :=
  ⟨rfl, by decide, rfl⟩

/-- C4 (amended): when a round of the walk ends in disagreement, the
disagreeing backend is an unfiltered member of the pool whose fetch at the
proposed height succeeded with some block `(n, h)`, and the broken-consensus
flag recorded for that round equals `currentConsensusBlockNumber >= n` — it is
determined by the FETCHED height `n`, not by the proposed height at which the
backend was checked. -/
theorem c4_broken_flag_amended (H now : Nat) (s : Backend → BackendState)
    (fetch : Backend → Nat → FetchResult) (p : Nat) :
    ∀ (l : List Backend) (pH : String) (cons : List Backend) (filt : List String) (b : Bool),
      runRound H now s fetch p l pH cons filt = RoundResult.disagreed b →
      ∃ be ∈ l, ∃ n h, isFiltered now s be = false ∧
        fetch be p = FetchResult.ok n h ∧ b = decide (H ≥ n) := by
  intro l
  induction l with
  | nil =>
    intro pH cons filt b hrun
    exact RoundResult.noConfusion hrun
  | cons be l ih =>
    intro pH cons filt b hrun
    cases hfv : isFiltered now s be with
    | true =>
      simp only [runRound, hfv, if_true] at hrun
      obtain ⟨be2, hbe2, hrest⟩ := ih _ _ _ _ hrun
      exact ⟨be2, List.mem_cons_of_mem _ hbe2, hrest⟩
    | false =>
      simp only [runRound, hfv, Bool.false_eq_true, if_false] at hrun
      cases hfetch : fetch be p with
      | err =>
        rw [hfetch] at hrun
        obtain ⟨be2, hbe2, hrest⟩ := ih _ _ _ _ hrun
        exact ⟨be2, List.mem_cons_of_mem _ hbe2, hrest⟩
      | ok n h =>
        rw [hfetch] at hrun
        simp only at hrun
        cases hpH : pH == "" with
        | true =>
          simp only [hpH, eq_self_iff_true, if_true] at hrun
          split at hrun
          · exact ⟨be, List.mem_cons_self .., n, h, hfv, hfetch,
              (RoundResult.disagreed.inj hrun).symm⟩
          · obtain ⟨be2, hbe2, hrest⟩ := ih _ _ _ _ hrun
            exact ⟨be2, List.mem_cons_of_mem _ hbe2, hrest⟩
        | false =>
          simp only [hpH, Bool.false_eq_true, if_false] at hrun
          split at hrun
          · exact ⟨be, List.mem_cons_self .., n, h, hfv, hfetch,
              (RoundResult.disagreed.inj hrun).symm⟩
          · obtain ⟨be2, hbe2, hrest⟩ := ih _ _ _ _ hrun
            exact ⟨be2, List.mem_cons_of_mem _ hbe2, hrest⟩

theorem c4_witness :
    ∃ be ∈ [beA], ∃ n h, isFiltered 0 s4x be = false ∧
      f4x be 5 = FetchResult.ok n h ∧ false = decide ((10 : Nat) ≥ n) :=
  c4_broken_flag_amended 10 0 s4x f4x 5 [beA] "b" [] [] false rfl

/-- C7: `setBackendState` reports a change exactly when the incoming hash
differs from the stored one — a height change alone is not reported — and
always overwrites the block number, the hash and the last-update time. -/
theorem c7_setBackendState_spec (bs : BackendState) (blockNumber : Nat)
    (blockHash : String) (now : Nat) :
    ((setBackendState bs blockNumber blockHash now).1 = true ↔
      bs.latestBlockHash ≠ blockHash) ∧
    (setBackendState bs blockNumber blockHash now).2.latestBlockNumber = blockNumber ∧
    (setBackendState bs blockNumber blockHash now).2.latestBlockHash = blockHash ∧
    (setBackendState bs blockNumber blockHash now).2.lastUpdate = now := by
  refine ⟨?_, rfl, rfl, rfl⟩
  simp [setBackendState]

/-- C8: when every backend's recorded height is zero, the resolution cycle
aborts before publishing anything: the tracker value and the consensus group
are returned unchanged and no broken event is emitted. -/
theorem c8_no_data_no_resolution (cp : ConsensusPoller) (now : Nat)
    (fetch : Backend → Nat → FetchResult) (fuel : Nat)
    (hz : ∀ be ∈ cp.backends, (cp.backendState be).latestBlockNumber = 0) :
    UpdateBackendGroupConsensus cp now fetch fuel = some (cp, false) := by
  have hzero : (lowestBlockFold cp).1 = 0 := by
    rw [lowestBlockFold, lowfold_zero_iff]
    rcases lastD_mem (cp.backends.map fun be => (cp.backendState be).latestBlockNumber) 0 with
      hemp | hmem
    · rw [hemp]; rfl
    · obtain ⟨be, hbe, heq⟩ := List.mem_map.mp hmem
      rw [← heq]
      exact hz be hbe
  unfold UpdateBackendGroupConsensus
  rw [if_pos hzero]

theorem c8_witness : UpdateBackendGroupConsensus cpW8 0 fdummy 1 = some (cpW8, false) :=
  c8_no_data_no_resolution cpW8 0 fdummy 1 (by decide)

/-- C5 counterexample: the only live backend `A` reports (10, a) and confirms
(10, a) when queried at height 10, so by the claim the cycle should publish
height 10 with group consisting of `A`; but the rate-limited backend `R` at
(5, b) participates in the baseline scan, the walk starts at 5, `A` disagrees
with hash `b` there, and the cycle publishes height 4 with group consisting of
`A` — not the shared height 10. -/
theorem c5_counterexample :
    (∀ be ∈ cp5x.backends, isFiltered 0 cp5x.backendState be = false →
      (cp5x.backendState be).latestBlockNumber = 10 ∧
      (cp5x.backendState be).latestBlockHash = "a" ∧
      f5x be 10 = FetchResult.ok 10 "a") ∧
    UpdateBackendGroupConsensus cp5x 0 f5x 3 =
      some ({ cp5x with tracker := 4, consensusGroup := [beA] }, false) ∧
    (4 : Nat) ≠ 10 :=
  ⟨by decide, rfl, by decide⟩

/-- C5 (amended): if the shared height of the live (unfiltered) backends is
nonzero, some live backend exists, every backend in the pool — filtered ones
included — records a height at least the shared height and records the shared
hash whenever its height equals it, and every live backend confirms the shared
(height, hash) when queried at that height, then one resolution cycle
publishes exactly the live backend set (in pool order) and the shared height,
with no broken event. -/
theorem c5_unanimous_amended (cp : ConsensusPoller) (now : Nat)
    (fetch : Backend → Nat → FetchResult) (fuel : Nat) (h0 : Nat) (hash0 : String)
    (hpos : h0 ≠ 0)
    (hhealthy : ∃ be ∈ cp.backends, isFiltered now cp.backendState be = false)
    (hstate : ∀ be ∈ cp.backends, isFiltered now cp.backendState be = false →
      (cp.backendState be).latestBlockNumber = h0 ∧
      (cp.backendState be).latestBlockHash = hash0)
    (hbound : ∀ be ∈ cp.backends, h0 ≤ (cp.backendState be).latestBlockNumber)
    (hhash : ∀ be ∈ cp.backends, (cp.backendState be).latestBlockNumber = h0 →
      (cp.backendState be).latestBlockHash = hash0)
    (hfetch : ∀ be ∈ cp.backends, isFiltered now cp.backendState be = false →
      fetch be h0 = FetchResult.ok h0 hash0) :
    UpdateBackendGroupConsensus cp now fetch (fuel + 1) =
      some ({ cp with
                tracker := h0,
                consensusGroup :=
                  cp.backends.filter fun be => !isFiltered now cp.backendState be },
            false) := by
  have hex : ∃ be ∈ cp.backends, (cp.backendState be).latestBlockNumber = h0 := by
    obtain ⟨be, hbe, hf⟩ := hhealthy
    exact ⟨be, hbe, (hstate be hbe hf).1⟩
  have hlow : lowestBlockFold cp = (h0, hash0) :=
    lowfold_unanimous cp h0 hash0 hpos hbound hhash hex
  have hround : runRound (GetConsensusBlockNumber cp) now cp.backendState fetch h0
      cp.backends hash0 [] [] =
      RoundResult.agreed hash0
        ([] ++ cp.backends.filter fun be => !isFiltered now cp.backendState be)
        ([] ++ (cp.backends.filter fun be => isFiltered now cp.backendState be).map
          Backend.name) := by
    apply runRound_all_match
    intro be hbe
    cases hfv : isFiltered now cp.backendState be with
    | true => exact Or.inl rfl
    | false => exact Or.inr (hfetch be hbe hfv)
  simp only [UpdateBackendGroupConsensus, hlow]
  rw [if_neg hpos]
  simp only [consensusLoop]
  rw [hround]
  simp

/-- C5 witness instance: a pool of one healthy backend at (7, h) confirming
(7, h) at height 7 resolves in one cycle to height 7 with that backend. -/
theorem c5_witness :
    UpdateBackendGroupConsensus cpW5 0 fW5 (0 + 1) =
      some ({ cpW5 with
                tracker := 7,
                consensusGroup :=
                  cpW5.backends.filter fun be => !isFiltered 0 cpW5.backendState be },
            false) :=
  c5_unanimous_amended cpW5 0 fW5 0 7 "h" (by decide) (by decide) (by decide)
    (by decide) (by decide) (by decide)

/-- C6 counterexample: every backend's height is zero, so the cycle aborts and
returns the poller unchanged — but the previously published consensus group
still contains the rate-limited backend `R`, so after this cycle a
rate-limited backend is present in the published consensus group. -/
theorem c6_counterexample :
    UpdateBackendGroupConsensus cp6x 0 fdummy 1 = some (cp6x, false) ∧
      isFiltered 0 cp6x.backendState beR = true ∧
      beR ∈ cp6x.consensusGroup :=
  ⟨rfl, by decide, by decide⟩

/-- C6 (amended): after every resolution cycle that actually publishes (its
baseline is nonzero, so it does not take the abort-unchanged path), every
member of the new published consensus group passed the round filter: none is
rate-limited, offline, or banned at the cycle's snapshot. -/
theorem c6_exclusion_amended (cp : ConsensusPoller) (now : Nat)
    (fetch : Backend → Nat → FetchResult) (fuel : Nat) (cp2 : ConsensusPoller) (brk : Bool)
    (hlow : (lowestBlockFold cp).1 ≠ 0)
    (hrun : UpdateBackendGroupConsensus cp now fetch fuel = some (cp2, brk)) :
    ∀ be ∈ cp2.consensusGroup, isFiltered now cp.backendState be = false := by
  simp only [UpdateBackendGroupConsensus] at hrun
  rw [if_neg hlow] at hrun
  cases hloop : consensusLoop (GetConsensusBlockNumber cp) now cp.backendState fetch
      cp.backends fuel (lowestBlockFold cp).1 (lowestBlockFold cp).2 false with
  | none => rw [hloop] at hrun; cases hrun
  | some res =>
    obtain ⟨p, cons, b2⟩ := res
    rw [hloop] at hrun
    simp only [Option.some.injEq, Prod.mk.injEq] at hrun
    intro be hbe
    have hcg : cp2.consensusGroup = cons := by rw [← hrun.1]
    rw [hcg] at hbe
    exact consensusLoop_mem_unfiltered (GetConsensusBlockNumber cp) now cp.backendState
      fetch cp.backends fuel (lowestBlockFold cp).1 (lowestBlockFold cp).2 false p cons b2
      hloop be hbe

/-- C6 witness instance: one healthy backend at (5, x) confirming at height 5;
the cycle publishes the group consisting of that backend, and every member of
the published group is unfiltered. -/
theorem c6_witness : isFiltered 0 cpW6.backendState beA = false :=
  c6_exclusion_amended cpW6 0 fW6 1 { cpW6 with tracker := 5, consensusGroup := [beA] }
    false (by decide) rfl beA (by decide)

theorem c9aux : ∀ (fuel p : Nat) (pH : String) (b : Bool),
    consensusLoop 0 0 s9x f9x [beA] fuel p pH b = none := by
  intro fuel
  induction fuel with
  | zero => intro p pH b; rfl
  | succ fuel ih =>
    intro p pH b
    have hf : isFiltered 0 s9x beA = false := by decide
    have hne : ((p + 1 : Nat) != p) = true := by simp [bne_iff_ne]
    have hr : runRound 0 0 s9x f9x p [beA] pH [] [] =
        RoundResult.disagreed (decide ((0 : Nat) ≥ p + 1)) := by
      simp only [runRound, hf, Bool.false_eq_true, if_false, f9x]
      simp only [hne, Bool.true_or, if_true]
    simp only [consensusLoop]
    rw [hr]
    exact ih (decWrap p) "" (b || decide ((0 : Nat) ≥ p + 1))

/-- C9 counterexample: one healthy backend whose answer at every queried height
`j` is a block at height `j + 1` disagrees in every round, so the walk-back
loop never reaches agreement: for every bound on the number of rounds the
cycle is still running (at height 0 the unsigned decrement wraps around to
2^64 - 1 instead of stopping). This refutes the claim that the agreement
loop always terminates, reaching the degenerate case at height 0. -/
theorem c9_counterexample :
    ¬ ∃ fuel, (UpdateBackendGroupConsensus cp9x 0 f9x fuel).isSome = true := by
  rintro ⟨fuel, hf⟩
  simp only [UpdateBackendGroupConsensus, cp9x, GetConsensusBlockNumber] at hf
  rw [if_neg (by decide)] at hf
  rw [c9aux fuel] at hf
  cases hf

/-- C9 (amended): on a failed round the proposed height moves from `p` to
`p - 1` when `p > 0` and wraps around to 2^64 - 1 when `p = 0` (it never stays
put, but at zero it jumps upward); and the walk-back loop does terminate
within `start - p0 + 1` rounds whenever some height `p0` at or below the
starting height yields a round that agrees regardless of the working hash —
for example because every backend is filtered or errors there. Termination is
not guaranteed for arbitrary backend responses. -/
theorem c9_termination_amended (H now : Nat) (s : Backend → BackendState)
    (fetch : Backend → Nat → FetchResult) (pool : List Backend)
    (p0 start : Nat) (pH0 : String) (b0 : Bool)
    (hle : p0 ≤ start)
    (hagree : ∀ pH, (runRound H now s fetch p0 pool pH [] []).isAgreed = true) :
    (consensusLoop H now s fetch pool (start - p0 + 1) start pH0 b0).isSome = true ∧
      ∀ p : Nat, decWrap p = if p = 0 then 2 ^ 64 - 1 else p - 1 := by
  refine ⟨?_, fun p => rfl⟩
  obtain ⟨d, rfl⟩ : ∃ d, start = p0 + d := ⟨start - p0, by omega⟩
  have hd : p0 + d - p0 = d := by omega
  rw [hd]
  exact consensusLoop_term H now s fetch pool p0 hagree d pH0 b0

/-- C9 witness instance: with a single filtered backend every round agrees
trivially, and the loop finishes in one round from height 3. -/
theorem c9_witness :
    (consensusLoop 0 0 sW9 fdummy [beR] (3 - 3 + 1) 3 "" false).isSome = true ∧
      ∀ p : Nat, decWrap p = if p = 0 then 2 ^ 64 - 1 else p - 1 :=
  c9_termination_amended 0 0 sW9 fdummy [beR] 3 3 "" false (by decide) (fun _ => rfl)

/-- C10: if the cycle's baseline is nonzero and, at the baseline height, every
backend in the pool is either filtered (rate-limited, offline or banned) or
has its fetch error, the very first round counts as full agreement: the cycle
terminates immediately, publishes the baseline height to the tracker and
replaces the published consensus group with the empty list, with no broken
event. -/
theorem c10_empty_round_agrees (cp : ConsensusPoller) (now : Nat)
    (fetch : Backend → Nat → FetchResult) (fuel : Nat)
    (hlow : (lowestBlockFold cp).1 ≠ 0)
    (hall : ∀ be ∈ cp.backends, isFiltered now cp.backendState be = true ∨
      fetch be (lowestBlockFold cp).1 = FetchResult.err) :
    UpdateBackendGroupConsensus cp now fetch (fuel + 1) =
      some ({ cp with tracker := (lowestBlockFold cp).1, consensusGroup := [] }, false) := by
  have hround := runRound_skip_all (GetConsensusBlockNumber cp) now cp.backendState fetch
    (lowestBlockFold cp).1 cp.backends (lowestBlockFold cp).2 [] [] hall
  simp only [UpdateBackendGroupConsensus]
  rw [if_neg hlow]
  simp only [consensusLoop]
  rw [hround]

/-- C10 witness instance: one rate-limited backend at height 7 with a previous
nonempty group; the cycle publishes height 7 and the empty group. -/
theorem c10_witness :
    UpdateBackendGroupConsensus cpW10 0 fdummy (0 + 1) =
      some ({ cpW10 with tracker := (lowestBlockFold cpW10).1, consensusGroup := [] },
        false) :=
  c10_empty_round_agrees cpW10 0 fdummy 0 (by decide) (by decide)
